import Mathlib

/-
Verification of the F1-Dash telemetry core against its specification.

The definitions below are a shallow embedding of the JavaScript source:
  - frontend/js/charts/telemetry-chart.js   (TelemetryChart)
  - the multi-channel chart (MultiTelemetryChart) and base chart (BaseChart)
  - frontend/js/charts/track-map-chart.js   (TrackMapChart)

Numeric values are modelled as rationals (ℚ); JS objects become structures;
missing fields become Option; JS truthiness of a numeric field is modelled
explicitly (a value of 0 is falsy).  A JS exception (reduce over an empty
array with no seed) is modelled as Option.none.
-/

/-- A telemetry point, mirroring the fields the charts read.
`time_ms` and `x`/`y` may be absent in the data; `speed` is modelled as
always present (no claim exercises a missing speed). -/
structure TelemetrySample where
  distance : ℚ
  time_ms : Option ℚ
  speed : ℚ
  throttle : ℚ
  brake : Bool
  rpm : ℚ
  gear : ℚ
  drs : ℚ
  x : Option ℚ
  y : Option ℚ
deriving DecidableEq

/-- Default sample used for out-of-range list indexing; the embeddings only
index within bounds, so the default never influences a result. -/
def defaultSample : TelemetrySample :=
  { distance := 0, time_ms := none, speed := 0, throttle := 0, brake := false,
    rpm := 0, gear := 0, drs := 0, x := none, y := none }

/-- A lap, as the charts consume it.  JS object identity (`===`) is modelled
as equality of the structure value. -/
structure Lap where
  driver_id : String
  lap_number : Nat
  telemetry : List TelemetrySample
deriving DecidableEq

/-! ## Nearest-sample lookup

`lap.telemetry.reduce((prev, curr) =>
    Math.abs(curr.distance - distance) < Math.abs(prev.distance - distance)
      ? curr : prev)`
as used by `TelemetryChart.handleMouseMove`, `MultiTelemetryChart.handleMouseMove`,
`MultiTelemetryChart.calculateDelta` and `TrackMapChart.drawDistanceMarker`. -/

/-- One step of the reduce: replace the accumulator only on a strictly
smaller absolute distance to the target. -/
def nearerTo (t : ℚ) (prev curr : TelemetrySample) : TelemetrySample :=
  if |curr.distance - t| < |prev.distance - t| then curr else prev

/-- JS `Array.prototype.reduce` with no seed: the first element seeds the
accumulator; an empty array throws, modelled as `none`. -/
def reduceNearest (t : ℚ) : List TelemetrySample → Option TelemetrySample
  | [] => none
  | p :: ps => some (ps.foldl (nearerTo t) p)

/-- The fold over a list `l` seeded with `a` returns the lowest-index
minimizer of `|distance − t|` in `a :: l`: the list splits around the result,
all earlier elements strictly farther, all later ones at least as far. -/
theorem foldl_nearerTo_split (t : ℚ) :
    ∀ (l : List TelemetrySample) (a : TelemetrySample),
      ∃ l₁ l₂, a :: l = l₁ ++ (l.foldl (nearerTo t) a) :: l₂ ∧
        (∀ s ∈ l₁, |(l.foldl (nearerTo t) a).distance - t| < |s.distance - t|) ∧
        (∀ s ∈ l₂, |(l.foldl (nearerTo t) a).distance - t| ≤ |s.distance - t|) := by
  intro l
  induction l with
  | nil =>
      intro a
      exact ⟨[], [], rfl, by simp, by simp⟩
  | cons b l ih =>
      intro a
      by_cases h : |b.distance - t| < |a.distance - t|
      · -- the accumulator becomes b
        have hab : (b :: l).foldl (nearerTo t) a = l.foldl (nearerTo t) b := by
          simp [List.foldl_cons, nearerTo, h]
        rw [hab]
        obtain ⟨l₁', l₂', hsplit, hstrict, hweak⟩ := ih b
        refine ⟨a :: l₁', l₂', by simpa using congrArg (a :: ·) hsplit, ?_, hweak⟩
        intro s hs
        rcases List.mem_cons.mp hs with hsa | hsl
        · subst hsa
          cases l₁' with
          | nil =>
              have hbr : b = l.foldl (nearerTo t) b ∧ l = l₂' := by simpa using hsplit
              rw [← hbr.1]; exact h
          | cons c l₁'' =>
              have hca : b = c ∧ l = l₁'' ++ (l.foldl (nearerTo t) b) :: l₂' := by
                simpa using hsplit
              have hcb := hstrict c (List.mem_cons_self c l₁'')
              rw [← hca.1] at hcb
              exact hcb.trans h
        · exact hstrict s hsl
      · -- the accumulator stays a
        have hab : (b :: l).foldl (nearerTo t) a = l.foldl (nearerTo t) a := by
          simp [List.foldl_cons, nearerTo, h]
        rw [hab]
        obtain ⟨l₁', l₂', hsplit, hstrict, hweak⟩ := ih a
        have hba : |a.distance - t| ≤ |b.distance - t| := le_of_not_lt h
        cases l₁' with
        | nil =>
            have har : a = l.foldl (nearerTo t) a ∧ l = l₂' := by simpa using hsplit
            refine ⟨[], b :: l, by simp [← har.1], by simp, ?_⟩
            intro s hs
            rcases List.mem_cons.mp hs with hsb | hsl
            · subst hsb; rw [← har.1]; exact hba
            · exact hweak s (har.2 ▸ hsl)
        | cons c l₁'' =>
            have hca : a = c ∧ l = l₁'' ++ (l.foldl (nearerTo t) a) :: l₂' := by
              simpa using hsplit
            have hra := hstrict c (List.mem_cons_self c l₁'')
            rw [← hca.1] at hra
            refine ⟨a :: b :: l₁'', l₂',
              by simpa using congrArg (fun xs => a :: b :: xs) hca.2, ?_, hweak⟩
            intro s hs
            rcases List.mem_cons.mp hs with hsa | hs'
            · subst hsa; exact hra
            · rcases List.mem_cons.mp hs' with hsb | hsl
              · subst hsb; exact hra.trans_le hba
              · exact hstrict s (List.mem_cons_of_mem c hsl)

/-- Claim C1: for every lap with a non-empty telemetry sample list and every
target distance, the reduce-based nearest-sample lookup returns the single
sample minimizing `|sample.distance − target|`, and on ties it returns the
earlier (lower-index) one: the telemetry splits as `l₁ ++ r :: l₂` with every
sample of `l₁` strictly farther from the target and every sample of `l₂` at
least as far. -/
theorem reduceNearest_least_argmin (lap : Lap) (t : ℚ) (h : lap.telemetry ≠ []) :
    ∃ r l₁ l₂, reduceNearest t lap.telemetry = some r ∧
      lap.telemetry = l₁ ++ r :: l₂ ∧
      (∀ s ∈ l₁, |r.distance - t| < |s.distance - t|) ∧
      (∀ s ∈ l₂, |r.distance - t| ≤ |s.distance - t|) := by
  cases htel : lap.telemetry with
  | nil => exact absurd htel h
  | cons p ps =>
      obtain ⟨l₁, l₂, hsplit, hstrict, hweak⟩ := foldl_nearerTo_split t ps p
      exact ⟨ps.foldl (nearerTo t) p, l₁, l₂, rfl, hsplit, hstrict, hweak⟩

/-- Sample at a given distance with no other data, for concrete checks. -/
def sampleAt (d : ℚ) : TelemetrySample :=
  { defaultSample with distance := d }

/-- The spec's worked example lap with samples at distances 0, 10, 20, 30. -/
def lapW : Lap :=
  { driver_id := "VER", lap_number := 1,
    telemetry := [sampleAt 0, sampleAt 10, sampleAt 20, sampleAt 30] }

/-- Witness for C1 at the spec's tie example: querying distance 15 on samples
at 0/10/20/30; the lookup returns the lower-index sample (distance 10). -/
theorem reduceNearest_least_argmin_witness :
    (∃ r l₁ l₂, reduceNearest 15 lapW.telemetry = some r ∧
      lapW.telemetry = l₁ ++ r :: l₂ ∧
      (∀ s ∈ l₁, |r.distance - 15| < |s.distance - 15|) ∧
      (∀ s ∈ l₂, |r.distance - 15| ≤ |s.distance - 15|)) ∧
    reduceNearest 15 lapW.telemetry = some (sampleAt 10) ∧
    reduceNearest 24 lapW.telemetry = some (sampleAt 20) :=
  ⟨reduceNearest_least_argmin lapW 15 (by decide),
   by norm_num [reduceNearest, lapW, nearerTo, sampleAt, defaultSample],
   by norm_num [reduceNearest, lapW, nearerTo, sampleAt, defaultSample]⟩

/-! ## Channel Layout Engine

The `channels.forEach` loop of `MultiTelemetryChart.setupScales`:
each channel gets `this.height * this.channelHeights[channel] - padding`
vertical units placed at the running `yOffset`, which then advances by the
channel height plus padding. -/

/-- The vertical band recorded for one channel in `this.channelScales`. -/
structure ChannelScale where
  height : ℚ
  offset : ℚ
deriving DecidableEq

/-- The layout loop, parametrized by the ordered weight list. -/
def setupBands (totalHeight padding : ℚ) : List ℚ → ℚ → List ChannelScale
  | [], _ => []
  | w :: ws, yOffset =>
      let channelHeight := totalHeight * w - padding
      ⟨channelHeight, yOffset⟩ ::
        setupBands totalHeight padding ws (yOffset + channelHeight + padding)

/-- The weights of `MultiTelemetryChart.channelHeights`, in the order of
`this.channels`: speed, delta, throttle, rpm, gear, drs.  They sum to 1. -/
def channelWeights : List ℚ := [35/100, 15/100, 15/100, 15/100, 10/100, 10/100]

theorem setupBands_heights (H p : ℚ) :
    ∀ (ws : List ℚ) (y0 : ℚ),
      (setupBands H p ws y0).map (fun b => b.height) = ws.map (fun w => H * w - p) := by
  intro ws
  induction ws with
  | nil => intro y0; rfl
  | cons w ws ih => intro y0; simp [setupBands, ih]

theorem setupBands_head_offset (H p : ℚ) (ws : List ℚ) (y0 : ℚ) (b : ChannelScale)
    (hb : (setupBands H p ws y0).head? = some b) : b.offset = y0 := by
  cases ws with
  | nil => simp [setupBands] at hb
  | cons w ws =>
      have hbe : b = ⟨H * w - p, y0⟩ := by
        simpa [setupBands, eq_comm] using hb
      rw [hbe]

theorem setupBands_chain (H p : ℚ) :
    ∀ (ws : List ℚ) (y0 : ℚ),
      List.Chain' (fun b c => c.offset = b.offset + b.height + p) (setupBands H p ws y0) := by
  intro ws
  induction ws with
  | nil => intro y0; simp [setupBands]
  | cons w ws ih =>
      intro y0
      simp only [setupBands]
      refine List.chain'_cons'.mpr ⟨?_, ih _⟩
      intro c hc
      have hoff := setupBands_head_offset H p ws (y0 + (H * w - p) + p) c hc
      simp [hoff]

theorem setupBands_sum (H p : ℚ) (ws : List ℚ) :
    ((setupBands H p ws 0).map (fun b => b.height)).sum + (ws.length : ℚ) * p
      = H * ws.sum := by
  rw [setupBands_heights]
  induction ws with
  | nil => simp
  | cons w ws ih =>
      simp only [List.map_cons, List.sum_cons, List.length_cons]
      push_cast
      push_cast at ih
      ring_nf
      linarith [ih]

/-- Counterexample to claim C2 as stated: with the chart's own weight set
(which sums to exactly 1, hence to at most 1), total height 400 and padding
10, the band heights sum to 340, and 340 + (6 − 1) × 10 = 390 ≠ 400. -/
theorem setupBands_claim_counterexample :
    ¬ ((((setupBands 400 10 channelWeights 0).map (fun b => b.height)).sum
        + ((channelWeights.length : ℚ) - 1) * 10) = 400) := by
  norm_num [setupBands, channelWeights]

/-- Claim C2 (amended): each band's height is totalHeight × weight − padding,
each band's offset is the previous band's end plus padding, and the band
heights sum to totalHeight × (sum of weights) − count × padding; equivalently
the height sum plus count × padding (not (count − 1) × padding) equals
totalHeight × (sum of weights), which is the total height when the weights
sum to exactly 1. -/
theorem setupBands_spec (H p : ℚ) (ws : List ℚ) :
    ((setupBands H p ws 0).map (fun b => b.height)).sum + (ws.length : ℚ) * p
        = H * ws.sum ∧
    (setupBands H p ws 0).map (fun b => b.height) = ws.map (fun w => H * w - p) ∧
    List.Chain' (fun b c => c.offset = b.offset + b.height + p) (setupBands H p ws 0) :=
  ⟨setupBands_sum H p ws, setupBands_heights H p ws 0, setupBands_chain H p ws 0⟩

/-! ## Delta Estimator (`MultiTelemetryChart.calculateDelta`) -/

/-- JS truthiness of a possibly-missing numeric field: an absent field and
the value 0 are both falsy (`point.time_ms && refPoint.time_ms`). -/
def truthyNum : Option ℚ → Bool
  | none => false
  | some q => decide (q ≠ 0)

/-- `MultiTelemetryChart.calculateDelta`.  `referenceLap` is `this.referenceLap`
(`none` when unset); JS object identity `lap === this.referenceLap` is
modelled as equality of the lap values.  The result is `none` exactly where
the JS code would throw (`reduce` over an empty reference telemetry with no
seed); otherwise `some` of the returned delta in seconds.  The fallback
constant 0.01 is 1/100. -/
def calculateDelta (referenceLap : Option Lap) (point : TelemetrySample)
    (lap : Lap) : Option ℚ :=
  match referenceLap with
  | none => some 0
  | some ref =>
    if lap = ref then some 0
    else
      match reduceNearest point.distance ref.telemetry with
      | none => none
      | some refPoint =>
        if truthyNum point.time_ms && truthyNum refPoint.time_ms then
          some ((point.time_ms.getD 0 - refPoint.time_ms.getD 0) / 1000)
        else
          some ((refPoint.speed - point.speed) * (1/100))

/-- Claim C8: the Delta Estimator returns 0 (not an error) for every sample
when no reference lap is set, and returns 0 for every sample when the target
lap is the reference lap itself. -/
theorem calculateDelta_identity_cases (pt : TelemetrySample) (lap ref : Lap) :
    calculateDelta none pt lap = some 0 ∧ calculateDelta (some ref) pt ref = some 0 := by
  exact ⟨rfl, by simp [calculateDelta]⟩

/-- Claim C3 (amended): when both the target sample and its matched reference
sample carry a nonzero timeOffsetMs, the delta is exactly
(target.timeOffsetMs − reference.timeOffsetMs) / 1000.  (When either carried
value is 0, JS truthiness routes the computation to the speed-based fallback
instead.) -/
theorem calculateDelta_exact_time (ref lap : Lap) (pt rp : TelemetrySample) (a b : ℚ)
    (hlap : lap ≠ ref)
    (hnear : reduceNearest pt.distance ref.telemetry = some rp)
    (ha : pt.time_ms = some a) (hb : rp.time_ms = some b)
    (ha0 : a ≠ 0) (hb0 : b ≠ 0) :
    calculateDelta (some ref) pt lap = some ((a - b) / 1000) := by
  simp [calculateDelta, hlap, hnear, truthyNum, ha, hb, ha0, hb0]

/-- Reference lap for the C3 concrete inputs: single sample at distance 0
with timeOffsetMs 1000 and speed 100. -/
def refLapD : Lap :=
  { driver_id := "VER", lap_number := 1,
    telemetry := [{ defaultSample with distance := 0, time_ms := some 1000, speed := 100 }] }

/-- Comparison sample for C3: carries timeOffsetMs 0 and speed 100. -/
def ptD : TelemetrySample :=
  { defaultSample with distance := 0, time_ms := some 0, speed := 100 }

/-- Comparison lap for C3 (distinct from the reference lap). -/
def cmpLapD : Lap :=
  { driver_id := "HAM", lap_number := 1, telemetry := [ptD] }

/-- Counterexample to claim C3 as stated: both the target sample and its
matched reference sample carry a timeOffsetMs (the target's is 0), but the
code returns the speed fallback 0 rather than (0 − 1000) / 1000 = −1,
because JS `&&` truthiness treats the carried 0 as absent. -/
theorem calculateDelta_zero_time_counterexample :
    ptD.time_ms = some 0 ∧
    reduceNearest ptD.distance refLapD.telemetry
      = some { defaultSample with distance := 0, time_ms := some 1000, speed := 100 } ∧
    calculateDelta (some refLapD) ptD cmpLapD = some 0 ∧
    calculateDelta (some refLapD) ptD cmpLapD
      ≠ some ((ptD.time_ms.getD 0 - (1000 : ℚ)) / 1000) := by
  have hne : cmpLapD ≠ refLapD := by decide
  refine ⟨rfl, rfl, ?_, ?_⟩
  · simp [calculateDelta, hne, reduceNearest, refLapD, ptD, truthyNum, defaultSample]
  · simp [calculateDelta, hne, reduceNearest, refLapD, ptD, truthyNum, defaultSample]

/-- Witness for C3 (amended) at concrete laps: target time 3000, reference
time 1000, delta (3000 − 1000)/1000 = 2. -/
theorem calculateDelta_exact_time_witness :
    calculateDelta
      (some refLapD)
      { defaultSample with distance := 0, time_ms := some 3000, speed := 90 }
      { driver_id := "HAM", lap_number := 2,
        telemetry := [{ defaultSample with distance := 0, time_ms := some 3000, speed := 90 }] }
      = some (((3000 : ℚ) - 1000) / 1000) := by
  apply calculateDelta_exact_time
  · decide
  · rfl
  · rfl
  · rfl
  · norm_num
  · norm_num

/-! ## Track Projector (`TrackMapChart.setupScales`)

`setupScales` collects all samples with both x and y present, computes the
x/y extents (`d3.extent`), picks one uniform scale from the data/viewport
aspect comparison, and builds two linear scales whose ranges center the
track and invert the y axis. -/

/-- The values `TrackMapChart.setupScales` computes: the uniform scale, the
centering offsets, the data extents, and the d3 range endpoints
(`xScale.range([xr0, xr1])`, `yScale.range([yr0, yr1])`). -/
structure Projection where
  scale : ℚ
  offsetX : ℚ
  offsetY : ℚ
  xMin : ℚ
  xMax : ℚ
  yMin : ℚ
  yMax : ℚ
  xr0 : ℚ
  xr1 : ℚ
  yr0 : ℚ
  yr1 : ℚ
deriving DecidableEq

/-- Outcome of `setupScales`: `noScales` when the method returns early
(no laps or no positional samples, leaving the scales unset), `divByZero`
when the JS code divides by a zero extent (producing an Infinity scale and
NaN offsets), `proj` otherwise. -/
inductive ProjResult
  | noScales
  | divByZero
  | proj (p : Projection)
deriving DecidableEq

/-- `data.laps.flatMap(l => (l.telemetry || []).filter(p => p.x != null && p.y != null))`. -/
def posPoints (laps : List Lap) : List TelemetrySample :=
  ((laps.map Lap.telemetry).flatten).filter (fun p => p.x.isSome && p.y.isSome)

/-- `d3.extent(allPoints, d => d.x)`: none on an empty list, else (min, max). -/
def xExtent (laps : List Lap) : Option (ℚ × ℚ) :=
  match posPoints laps with
  | [] => none
  | p :: ps =>
      some (ps.foldl (fun a q => min a (q.x.getD 0)) (p.x.getD 0),
            ps.foldl (fun a q => max a (q.x.getD 0)) (p.x.getD 0))

/-- `d3.extent(allPoints, d => d.y)`. -/
def yExtent (laps : List Lap) : Option (ℚ × ℚ) :=
  match posPoints laps with
  | [] => none
  | p :: ps =>
      some (ps.foldl (fun a q => min a (q.y.getD 0)) (p.y.getD 0),
            ps.foldl (fun a q => max a (q.y.getD 0)) (p.y.getD 0))

/-- The offsets and scale ranges built from a chosen uniform scale:
`offsetX = (width − dataWidth·scale)/2`, `offsetY = (height − dataHeight·scale)/2`,
`xScale.range([offsetX, offsetX + dataWidth·scale])`,
`yScale.range([height − offsetY, offsetY])` (y inverted). -/
def mkProjection (w h xm xM ym yM scale : ℚ) : Projection :=
  let dW := xM - xm
  let dH := yM - ym
  let offsetX := (w - dW * scale) / 2
  let offsetY := (h - dH * scale) / 2
  { scale := scale, offsetX := offsetX, offsetY := offsetY,
    xMin := xm, xMax := xM, yMin := ym, yMax := yM,
    xr0 := offsetX, xr1 := offsetX + dW * scale,
    yr0 := h - offsetY, yr1 := offsetY }

/-- `TrackMapChart.setupScales`.  The JS branch `dataAspect > chartAspect`
(with `dataAspect = dW/dH`, `chartAspect = w/h` computed in floats) is
encoded as `dW * h > w * dH`, which for positive `w`, `h` and nonnegative
extents agrees with the float comparison including its degenerate cases:
`dH = 0, dW > 0` gives `dataAspect = Infinity` (branch taken), and
`dW = dH = 0` gives `NaN` (branch not taken).  `divByZero` marks exactly the
states where the JS code computes `width/0` or `height/0`. -/
def trackSetupScales (w h : ℚ) (laps : List Lap) : ProjResult :=
  match laps with
  | [] => ProjResult.noScales
  | _ :: _ =>
    match xExtent laps, yExtent laps with
    | some (xm, xM), some (ym, yM) =>
      let dW := xM - xm
      let dH := yM - ym
      if dW * h > w * dH then
        if dW = 0 then ProjResult.divByZero
        else ProjResult.proj (mkProjection w h xm xM ym yM (w / dW))
      else
        if dH = 0 then ProjResult.divByZero
        else ProjResult.proj (mkProjection w h xm xM ym yM (h / dH))
    | _, _ => ProjResult.noScales

theorem mkProjection_spec (w h xm xM ym yM s : ℚ) (hs : 0 < s)
    (hdh : 0 < yM - ym) :
    (mkProjection w h xm xM ym yM s).scale = s ∧
    (mkProjection w h xm xM ym yM s).xr1 - (mkProjection w h xm xM ym yM s).xr0
      = (xM - xm) * s ∧
    (mkProjection w h xm xM ym yM s).yr0 - (mkProjection w h xm xM ym yM s).yr1
      = (yM - ym) * s ∧
    ((mkProjection w h xm xM ym yM s).xr1 - (mkProjection w h xm xM ym yM s).xr0)
        / ((mkProjection w h xm xM ym yM s).yr0 - (mkProjection w h xm xM ym yM s).yr1)
      = (xM - xm) / (yM - ym) ∧
    (mkProjection w h xm xM ym yM s).xr0 = w - (mkProjection w h xm xM ym yM s).xr1 ∧
    (mkProjection w h xm xM ym yM s).yr1 = h - (mkProjection w h xm xM ym yM s).yr0 ∧
    (mkProjection w h xm xM ym yM s).yr1 < (mkProjection w h xm xM ym yM s).yr0 := by
  have h1 : (mkProjection w h xm xM ym yM s).xr1 - (mkProjection w h xm xM ym yM s).xr0
      = (xM - xm) * s := by
    simp only [mkProjection]; ring
  have h2 : (mkProjection w h xm xM ym yM s).yr0 - (mkProjection w h xm xM ym yM s).yr1
      = (yM - ym) * s := by
    simp only [mkProjection]; ring
  refine ⟨rfl, h1, h2, ?_, ?_, ?_, ?_⟩
  · rw [h1, h2, mul_div_mul_right _ _ (ne_of_gt hs)]
  · simp only [mkProjection]; ring
  · simp only [mkProjection]; ring
  · have := mul_pos hdh hs
    linarith [h2]

/-- Claim C4: for every non-degenerate input (positive-width and
positive-height extent) and positive viewport, the Track Projector uses the
single uniform scale `width/(xMax−xMin)` when dataAspect > viewAspect and
`height/(yMax−yMin)` otherwise, the projected extent satisfies
projectedWidth/projectedHeight = dataWidth/dataHeight, and it is centered in
the viewport (equal margins on each side) with the y-axis inverted
(the y range runs from `height − offsetY` down to `offsetY`). -/
theorem trackSetupScales_aspect (w h : ℚ) (laps : List Lap) (xm xM ym yM : ℚ)
    (hw : 0 < w) (hh : 0 < h)
    (hx : xExtent laps = some (xm, xM)) (hy : yExtent laps = some (ym, yM))
    (hdw : 0 < xM - xm) (hdh : 0 < yM - ym) :
    ∃ p, trackSetupScales w h laps = ProjResult.proj p ∧
      p.scale = (if w / h < (xM - xm) / (yM - ym)
                 then w / (xM - xm) else h / (yM - ym)) ∧
      0 < p.scale ∧
      p.xr1 - p.xr0 = (xM - xm) * p.scale ∧
      p.yr0 - p.yr1 = (yM - ym) * p.scale ∧
      (p.xr1 - p.xr0) / (p.yr0 - p.yr1) = (xM - xm) / (yM - ym) ∧
      p.xr0 = w - p.xr1 ∧
      p.yr1 = h - p.yr0 ∧
      p.yr1 < p.yr0 := by
  cases laps with
  | nil => simp [xExtent, posPoints] at hx
  | cons lp lps =>
      have hcond : ((xM - xm) * h > w * (yM - ym)) ↔ (w / h < (xM - xm) / (yM - ym)) := by
        rw [div_lt_div_iff₀ hh hdh]
      by_cases hc : (xM - xm) * h > w * (yM - ym)
      · have hs : 0 < w / (xM - xm) := div_pos hw hdw
        obtain ⟨e1, e2, e3, e4, e5, e6, e7⟩ :=
          mkProjection_spec w h xm xM ym yM (w / (xM - xm)) hs hdh
        refine ⟨mkProjection w h xm xM ym yM (w / (xM - xm)), ?_,
          ?_, e1 ▸ hs, e2, e3, e4, e5, e6, e7⟩
        · simp only [trackSetupScales, hx, hy]
          rw [if_pos hc, if_neg (ne_of_gt hdw)]
        · rw [e1, if_pos (hcond.mp hc)]
      · have hs : 0 < h / (yM - ym) := div_pos hh hdh
        obtain ⟨e1, e2, e3, e4, e5, e6, e7⟩ :=
          mkProjection_spec w h xm xM ym yM (h / (yM - ym)) hs hdh
        refine ⟨mkProjection w h xm xM ym yM (h / (yM - ym)), ?_,
          ?_, e1 ▸ hs, e2, e3, e4, e5, e6, e7⟩
        · simp only [trackSetupScales, hx, hy]
          rw [if_neg hc, if_neg (ne_of_gt hdh)]
        · rw [e1, if_neg ((not_iff_not.mpr hcond).mp hc)]

/-- Lap with two positional samples spanning a 4 × 2 data extent, for the C4
witness. -/
def lapT : Lap :=
  { driver_id := "VER", lap_number := 1,
    telemetry := [{ defaultSample with x := some 0, y := some 0, speed := 100 },
                  { defaultSample with x := some 4, y := some 2, speed := 80 }] }

/-- Witness for C4 at a concrete input: viewport 100 × 50, data extent
[0,4] × [0,2]. -/
theorem trackSetupScales_aspect_witness :
    ∃ p, trackSetupScales 100 50 [lapT] = ProjResult.proj p ∧
      p.scale = (if (100 : ℚ) / 50 < ((4 : ℚ) - 0) / ((2 : ℚ) - 0)
                 then (100 : ℚ) / ((4 : ℚ) - 0) else (50 : ℚ) / ((2 : ℚ) - 0)) ∧
      0 < p.scale ∧
      p.xr1 - p.xr0 = ((4 : ℚ) - 0) * p.scale ∧
      p.yr0 - p.yr1 = ((2 : ℚ) - 0) * p.scale ∧
      (p.xr1 - p.xr0) / (p.yr0 - p.yr1) = ((4 : ℚ) - 0) / ((2 : ℚ) - 0) ∧
      p.xr0 = 100 - p.xr1 ∧
      p.yr1 = 50 - p.yr0 ∧
      p.yr1 < p.yr0 :=
  trackSetupScales_aspect 100 50 [lapT] 0 4 0 2 (by norm_num) (by norm_num)
    (by norm_num [xExtent, posPoints, lapT, defaultSample, min_def, max_def])
    (by norm_num [yExtent, posPoints, lapT, defaultSample, min_def, max_def])
    (by norm_num) (by norm_num)

/-- Lap with a single positional sample: the bounding box has zero width and
zero height. -/
def lapP : Lap :=
  { driver_id := "VER", lap_number := 1,
    telemetry := [{ defaultSample with x := some 7, y := some 3, speed := 100 }] }

/-- Counterexample to claim C5 as stated: a zero-extent bounding box (a
single positional sample) does not short-circuit; the code reaches
`scale = height / dataHeight` with `dataHeight = 0`, a division by zero
(Infinity scale, NaN offsets in JS). -/
theorem trackSetupScales_degenerate_counterexample :
    trackSetupScales 100 50 [lapP] = ProjResult.divByZero ∧
    ProjResult.divByZero ≠ ProjResult.noScales := by
  constructor
  · norm_num [trackSetupScales, xExtent, yExtent, posPoints, lapP, defaultSample]
  · simp

/-- Claim C5 (amended): on zero positional samples the Track Projector
short-circuits to a safe no-op (the scales are left unset); a zero-extent
bounding box does not short-circuit — when both extents are zero (all
positional samples coincide) the computation reaches the scale division
with a zero denominator (Infinity scale, NaN offsets in JS).  The
counterexample shows this outcome is not the no-op. -/
theorem trackSetupScales_degenerate (w h : ℚ) (laps : List Lap) :
    (posPoints laps = [] → trackSetupScales w h laps = ProjResult.noScales) ∧
    (∀ xm ym, xExtent laps = some (xm, xm) → yExtent laps = some (ym, ym) →
      trackSetupScales w h laps = ProjResult.divByZero) := by
  constructor
  · intro hpts
    cases laps with
    | nil => rfl
    | cons lp lps => simp [trackSetupScales, xExtent, yExtent, hpts]
  · intro xm ym hx hy
    cases laps with
    | nil => simp [xExtent, posPoints] at hx
    | cons lp lps => simp [trackSetupScales, hx, hy]

/-- Witness for C5 (amended) at concrete inputs: the single-point lap hits
the division by zero; the empty lap list short-circuits. -/
theorem trackSetupScales_degenerate_witness :
    trackSetupScales 100 50 [lapP] = ProjResult.divByZero ∧
    trackSetupScales 100 50 [] = ProjResult.noScales :=
  ⟨(trackSetupScales_degenerate 100 50 [lapP]).2 7 3 rfl rfl,
   (trackSetupScales_degenerate 100 50 []).1 rfl⟩

/-! ## Corner Detector (`TrackMapChart.detectAndDrawTurns`)

Scans the filtered points for local speed minima significantly below the
surrounding average; parameters: window 20, inner radius 5, threshold 0.85,
minimum marker separation 200. -/

/-- A corner marker as pushed onto `turns`. -/
structure Turn where
  x : ℚ
  y : ℚ
  distance : ℚ
  speed : ℚ
  index : Nat
deriving DecidableEq

/-- `const windowSize = 20`. -/
def windowSize : Nat := 20

/-- `telemetry.filter(p => p.x != null && p.y != null && p.speed != null)`;
speed is modelled as always present, so only x and y are tested. -/
def posSpeedPoints (telemetry : List TelemetrySample) : List TelemetrySample :=
  telemetry.filter (fun p => p.x.isSome && p.y.isSome)

/-- `points[i].speed` (indices are kept in bounds by the loop guards). -/
def spAt (pts : List TelemetrySample) (i : Nat) : ℚ :=
  (pts.getD i defaultSample).speed

/-- `points[i].distance`. -/
def dAt (pts : List TelemetrySample) (i : Nat) : ℚ :=
  (pts.getD i defaultSample).distance

/-- Mean speed of the 2·windowSize samples from `i − windowSize` to
`i + windowSize` excluding `i` (the inner `for j` loop plus the average). -/
def surroundingAvg (pts : List TelemetrySample) (i : Nat) : ℚ :=
  let js := (List.range' (i - windowSize) (2 * windowSize + 1)).filter (fun j => j ≠ i)
  (js.map (spAt pts)).sum / (js.length : ℚ)

/-- `currentSpeed < avgSurrounding * speedThreshold`, threshold 0.85 = 85/100. -/
def isCandidate (pts : List TelemetrySample) (i : Nat) : Bool :=
  decide (spAt pts i < surroundingAvg pts i * (85 / 100))

/-- No in-bounds sample within ±5 of `i` (other than `i`) is strictly slower. -/
def isLocalMin (pts : List TelemetrySample) (i : Nat) : Bool :=
  ((List.range' (i - 5) 11).filter (fun j => j ≠ i)).all
    (fun j => !(decide (j < pts.length) && decide (spAt pts j < spAt pts i)))

/-- The turn object pushed for index `i` with 1-based sequential index. -/
def mkTurn (pts : List TelemetrySample) (i : Nat) (idx : Nat) : Turn :=
  { x := (pts.getD i defaultSample).x.getD 0,
    y := (pts.getD i defaultSample).y.getD 0,
    distance := dAt pts i,
    speed := spAt pts i,
    index := idx }

/-- One iteration of the outer `for` loop: push a marker when the candidate
and local-minimum tests pass and either no marker exists yet or the distance
gap to the last marker exceeds 200. -/
def turnStep (pts : List TelemetrySample) (turns : List Turn) (i : Nat) : List Turn :=
  if isCandidate pts i && isLocalMin pts i then
    match turns.getLast? with
    | none => turns ++ [mkTurn pts i (turns.length + 1)]
    | some lastTurn =>
        if |dAt pts i - lastTurn.distance| > 200 then
          turns ++ [mkTurn pts i (turns.length + 1)]
        else turns
  else turns

/-- `TrackMapChart.detectAndDrawTurns`: early return on fewer than 10
filtered points, else the loop from `windowSize` to
`points.length − windowSize` (which performs `points.length − 2·windowSize`
iterations when that is positive, none otherwise). -/
def detectTurns (telemetry : List TelemetrySample) : List Turn :=
  let pts := posSpeedPoints telemetry
  if pts.length < 10 then []
  else (List.range' windowSize (pts.length - 2 * windowSize)).foldl (turnStep pts) []

/-- Consecutive markers are separated by more than 200 distance units. -/
def gapOk (turns : List Turn) : Prop :=
  List.Chain' (fun a b => 200 < b.distance - a.distance) turns

/-- Marker indices are 1-based and sequential in detection order. -/
def idxOk (turns : List Turn) : Prop :=
  turns.map Turn.index = List.range' 1 turns.length

theorem pairwise_getD (r : TelemetrySample → TelemetrySample → Prop)
    (pts : List TelemetrySample) (hs : List.Pairwise r pts)
    {i j : Nat} (hij : i < j) (hj : j < pts.length) :
    r (pts.getD i defaultSample) (pts.getD j defaultSample) := by
  have hi : i < pts.length := lt_trans hij hj
  rw [List.getD_eq_get _ _ hi, List.getD_eq_get _ _ hj]
  exact List.pairwise_iff_get.mp hs ⟨i, hi⟩ ⟨j, hj⟩ hij

theorem dAt_mono (pts : List TelemetrySample)
    (hs : List.Pairwise (fun a b => a.distance ≤ b.distance) pts)
    {i j : Nat} (hij : i ≤ j) (hj : j < pts.length) :
    dAt pts i ≤ dAt pts j := by
  rcases eq_or_lt_of_le hij with rfl | hlt
  · exact le_refl _
  · exact pairwise_getD _ pts hs hlt hj

theorem turnStep_inv (pts : List TelemetrySample) (i : Nat) (turns : List Turn)
    (h1 : gapOk turns) (h2 : idxOk turns)
    (h3 : ∀ tn ∈ turns.getLast?, tn.distance ≤ dAt pts i) :
    gapOk (turnStep pts turns i) ∧ idxOk (turnStep pts turns i) ∧
      (∀ tn ∈ (turnStep pts turns i).getLast?, tn.distance ≤ dAt pts i) := by
  unfold turnStep
  by_cases hc : (isCandidate pts i && isLocalMin pts i) = true
  · rw [if_pos hc]
    have hpush : ∀ nt : Turn, nt = mkTurn pts i (turns.length + 1) →
        (∀ tn ∈ turns.getLast?, 200 < nt.distance - tn.distance) →
        gapOk (turns ++ [nt]) ∧ idxOk (turns ++ [nt]) ∧
          (∀ tn ∈ (turns ++ [nt]).getLast?, tn.distance ≤ dAt pts i) := by
      intro nt hnt hgap
      refine ⟨?_, ?_, ?_⟩
      · exact List.chain'_append.mpr
          ⟨h1, List.chain'_singleton nt, by
            intro x hx y hy
            simp only [List.head?_cons, Option.mem_def, Option.some.injEq] at hy
            subst hy
            exact hgap x hx⟩
      · unfold idxOk at h2 ⊢
        rw [List.map_append, h2]
        simp [hnt, mkTurn, List.range'_concat, Nat.add_comm]
      · intro tn htn
        rw [List.getLast?_concat] at htn
        simp only [Option.mem_def, Option.some.injEq] at htn
        subst htn
        simp [hnt, mkTurn]
    cases hlast : turns.getLast? with
    | none =>
        exact hpush _ rfl (by simp [hlast])
    | some lastTurn =>
        dsimp only
        by_cases hgap : |dAt pts i - lastTurn.distance| > 200
        · rw [if_pos hgap]
          refine hpush _ rfl ?_
          intro tn htn
          rw [hlast] at htn
          simp only [Option.mem_def, Option.some.injEq] at htn
          have hle : lastTurn.distance ≤ dAt pts i := h3 lastTurn (by rw [hlast]; rfl)
          have habs : |dAt pts i - lastTurn.distance| = dAt pts i - lastTurn.distance :=
            abs_of_nonneg (by linarith)
          rw [habs] at hgap
          subst htn
          simp only [mkTurn]
          exact hgap
        · rw [if_neg hgap]
          exact ⟨h1, h2, h3⟩
  · rw [if_neg hc]
    exact ⟨h1, h2, h3⟩

theorem foldl_turnStep_inv (pts : List TelemetrySample)
    (hsort : List.Pairwise (fun a b => a.distance ≤ b.distance) pts) :
    ∀ (m s : Nat), (s + m ≤ pts.length ∨ m = 0) → ∀ turns,
      gapOk turns → idxOk turns →
      (∀ tn ∈ turns.getLast?, tn.distance ≤ dAt pts s) →
      gapOk ((List.range' s m).foldl (turnStep pts) turns) ∧
        idxOk ((List.range' s m).foldl (turnStep pts) turns) := by
  intro m
  induction m with
  | zero =>
      intro s _ turns h1 h2 _
      simpa using ⟨h1, h2⟩
  | succ k ih =>
      intro s hb turns h1 h2 h3
      rw [List.range'_succ, List.foldl_cons]
      obtain ⟨g1, g2, g3⟩ := turnStep_inv pts s turns h1 h2 h3
      rcases Nat.eq_zero_or_pos k with rfl | hk
      · simpa using ⟨g1, g2⟩
      · have hsm : s + (k + 1) ≤ pts.length := by
          rcases hb with hb | hb
          · exact hb
          · omega
        have hs1 : s + 1 < pts.length := by omega
        have hmono : dAt pts s ≤ dAt pts (s + 1) :=
          dAt_mono pts hsort (Nat.le_succ s) hs1
        refine ih (s + 1) (Or.inl (by omega)) _ g1 g2 ?_
        intro tn htn
        exact (g3 tn htn).trans hmono

theorem gapOk_head_lt :
    ∀ (l : List Turn) (a : Turn), gapOk (a :: l) → ∀ b ∈ l, a.distance < b.distance := by
  intro l
  induction l with
  | nil => intro a _ b hb; cases hb
  | cons c l ih =>
      intro a h b hb
      have hac : 200 < c.distance - a.distance := (List.chain'_cons.mp h).1
      have htail : gapOk (c :: l) := (List.chain'_cons.mp h).2
      rcases List.mem_cons.mp hb with rfl | hbl
      · linarith
      · have := ih c htail b hbl
        linarith

theorem gapOk_pairwise :
    ∀ l : List Turn, gapOk l → List.Pairwise (fun a b => a.distance < b.distance) l := by
  intro l
  induction l with
  | nil => intro _; simp
  | cons a l ih =>
      intro h
      have htail : gapOk l := (List.chain'_cons'.mp h).2
      exact List.pairwise_cons.mpr ⟨gapOk_head_lt l a h, ih htail⟩

/-- Claim C6: for every telemetry sequence sorted ascending by distance, the
Corner Detector's marker list has every two consecutive markers more than
200 distance units apart, is strictly ordered by increasing distance, and
carries sequential 1-based indices in detection order. -/
theorem detectTurns_sorted (telemetry : List TelemetrySample)
    (hs : List.Pairwise (fun a b => a.distance ≤ b.distance) telemetry) :
    List.Chain' (fun a b => 200 < b.distance - a.distance) (detectTurns telemetry) ∧
    List.Pairwise (fun a b => a.distance < b.distance) (detectTurns telemetry) ∧
    (detectTurns telemetry).map Turn.index
      = List.range' 1 (detectTurns telemetry).length := by
  have hpts : List.Pairwise (fun a b => a.distance ≤ b.distance) (posSpeedPoints telemetry) :=
    hs.sublist (List.filter_sublist telemetry)
  have hmain : gapOk (detectTurns telemetry) ∧ idxOk (detectTurns telemetry) := by
    unfold detectTurns
    by_cases hlen : (posSpeedPoints telemetry).length < 10
    · simp only [hlen, if_true]
      exact ⟨List.chain'_nil, rfl⟩
    · rw [if_neg hlen]
      refine foldl_turnStep_inv (posSpeedPoints telemetry) hpts
        ((posSpeedPoints telemetry).length - 2 * windowSize) windowSize ?_ []
        List.chain'_nil rfl (by simp)
      unfold windowSize
      omega
  exact ⟨hmain.1, gapOk_pairwise _ hmain.1, hmain.2⟩

/-- Witness for C6 at the concrete sorted example lap (distances 0/10/20/30). -/
theorem detectTurns_sorted_witness :
    List.Chain' (fun a b => 200 < b.distance - a.distance) (detectTurns lapW.telemetry) ∧
    List.Pairwise (fun a b => a.distance < b.distance) (detectTurns lapW.telemetry) ∧
    (detectTurns lapW.telemetry).map Turn.index
      = List.range' 1 (detectTurns lapW.telemetry).length :=
  detectTurns_sorted lapW.telemetry (by decide)

theorem foldl_turnStep_noop (pts : List TelemetrySample) (is : List Nat)
    (h : ∀ i ∈ is, (isCandidate pts i && isLocalMin pts i) = false) :
    ∀ turns, is.foldl (turnStep pts) turns = turns := by
  induction is with
  | nil => intro turns; rfl
  | cons i is ih =>
      intro turns
      rw [List.foldl_cons]
      have hcond := h i (List.mem_cons_self i is)
      have hstep : turnStep pts turns i = turns := by
        unfold turnStep
        rw [if_neg (by simp [hcond])]
      rw [hstep]
      exact ih (fun j hj => h j (List.mem_cons_of_mem i hj)) turns

theorem getD_mem_of_lt (pts : List TelemetrySample) {j : Nat} (hj : j < pts.length) :
    pts.getD j defaultSample ∈ pts := by
  rw [List.getD_eq_get _ _ hj]
  exact List.get_mem pts j hj

theorem surroundingAvg_const (pts : List TelemetrySample) (c : ℚ)
    (hc : ∀ p ∈ pts, p.speed = c) {i : Nat} (hiW : windowSize ≤ i)
    (hin : i + windowSize < pts.length) :
    surroundingAvg pts i = c := by
  simp only [surroundingAvg]
  set js := (List.range' (i - windowSize) (2 * windowSize + 1)).filter (fun j => j ≠ i)
    with hjs
  have hmap : js.map (spAt pts) = js.map (fun _ => c) := by
    apply List.map_congr_left
    intro j hj
    have hjr := (List.mem_filter.mp hj).1
    have hjb := List.mem_range'_1.mp hjr
    have hjlt : j < pts.length := by
      unfold windowSize at hjb hiW hin
      omega
    unfold spAt
    exact hc _ (getD_mem_of_lt pts hjlt)
  have hmem : i - windowSize ∈ js := by
    rw [hjs]
    refine List.mem_filter.mpr ⟨List.mem_range'_1.mpr ⟨le_refl _, by omega⟩, ?_⟩
    simp only [ne_eq, decide_eq_true_eq]
    unfold windowSize at hiW ⊢
    omega
  have hne : (js.length : ℚ) ≠ 0 := by
    have : js ≠ [] := List.ne_nil_of_mem hmem
    simpa [List.length_eq_zero] using this
  rw [hmap]
  rw [List.map_const']
  rw [List.sum_replicate, nsmul_eq_mul]
  exact mul_div_cancel_left₀ c hne

theorem isCandidate_const_false (pts : List TelemetrySample) (c : ℚ) (hc0 : 0 ≤ c)
    (hc : ∀ p ∈ pts, p.speed = c) {i : Nat} (hiW : windowSize ≤ i)
    (hin : i + windowSize < pts.length) :
    isCandidate pts i = false := by
  unfold isCandidate
  rw [surroundingAvg_const pts c hc hiW hin]
  have hsp : spAt pts i = c := by
    unfold spAt
    exact hc _ (getD_mem_of_lt pts (by omega))
  rw [hsp]
  simp only [decide_eq_false_iff_not, not_lt]
  linarith

theorem isLocalMin_false_of_slower (pts : List TelemetrySample) {i j : Nat}
    (hjr : j ∈ (List.range' (i - 5) 11).filter (fun k => k ≠ i))
    (hjlt : j < pts.length) (hslow : spAt pts j < spAt pts i) :
    isLocalMin pts i = false := by
  apply Bool.eq_false_iff.mpr
  intro hall
  unfold isLocalMin at hall
  rw [List.all_eq_true] at hall
  have h2 := hall j hjr
  simp [hjlt, hslow] at h2

theorem detectTurns_eq_nil_of_no_push (telemetry : List TelemetrySample)
    (h : ∀ i ∈ List.range' windowSize ((posSpeedPoints telemetry).length - 2 * windowSize),
      (isCandidate (posSpeedPoints telemetry) i
        && isLocalMin (posSpeedPoints telemetry) i) = false) :
    detectTurns telemetry = [] := by
  unfold detectTurns
  by_cases h10 : (posSpeedPoints telemetry).length < 10
  · simp [h10]
  · rw [if_neg h10]
    exact foldl_turnStep_noop _ _ h []

/-- Claim C7 (amended): the Corner Detector emits zero markers for any input
with fewer than 2·W + 1 = 41 samples, for any constant speed profile of
nonnegative speed, and for any strictly monotonic (increasing or decreasing)
speed profile.  (For a constant negative speed the candidate test
`c < 0.85·c` succeeds, so markers can be emitted; see the counterexample.) -/
theorem detectTurns_flat (telemetry : List TelemetrySample) (c : ℚ) :
    (telemetry.length < 41 → detectTurns telemetry = []) ∧
    (0 ≤ c → (∀ p ∈ telemetry, p.speed = c) → detectTurns telemetry = []) ∧
    (List.Pairwise (fun a b => a.speed < b.speed) telemetry → detectTurns telemetry = []) ∧
    (List.Pairwise (fun a b => b.speed < a.speed) telemetry → detectTurns telemetry = []) := by
  have hple : (posSpeedPoints telemetry).length ≤ telemetry.length :=
    List.length_filter_le _ _
  refine ⟨?_, ?_, ?_, ?_⟩
  · intro h41
    refine detectTurns_eq_nil_of_no_push telemetry ?_
    intro i hi
    exfalso
    have hb := List.mem_range'_1.mp hi
    unfold windowSize at hb
    omega
  · intro hc0 hc
    refine detectTurns_eq_nil_of_no_push telemetry ?_
    intro i hi
    have hb := List.mem_range'_1.mp hi
    have hiW : windowSize ≤ i := hb.1
    have hin : i + windowSize < (posSpeedPoints telemetry).length := by
      unfold windowSize at hb hiW ⊢
      omega
    have hcpts : ∀ p ∈ posSpeedPoints telemetry, p.speed = c := fun p hp =>
      hc p (List.mem_of_mem_filter hp)
    rw [isCandidate_const_false _ c hc0 hcpts hiW hin]
    rfl
  · intro hmono
    refine detectTurns_eq_nil_of_no_push telemetry ?_
    intro i hi
    have hb := List.mem_range'_1.mp hi
    have hppw : List.Pairwise (fun a b => a.speed < b.speed) (posSpeedPoints telemetry) :=
      hmono.sublist (List.filter_sublist telemetry)
    have hilt : i < (posSpeedPoints telemetry).length := by
      unfold windowSize at hb
      omega
    have hi1 : 1 ≤ i := by
      have := hb.1
      unfold windowSize at this
      omega
    have hlt : spAt (posSpeedPoints telemetry) (i - 1) < spAt (posSpeedPoints telemetry) i := by
      unfold spAt
      exact pairwise_getD _ _ hppw (by omega) hilt
    have hmem : (i - 1) ∈ (List.range' (i - 5) 11).filter (fun k => k ≠ i) := by
      refine List.mem_filter.mpr ⟨List.mem_range'_1.mpr ⟨by omega, by omega⟩, ?_⟩
      simp only [ne_eq, decide_eq_true_eq]
      omega
    rw [isLocalMin_false_of_slower _ hmem (by omega) hlt]
    simp
  · intro hmono
    refine detectTurns_eq_nil_of_no_push telemetry ?_
    intro i hi
    have hb := List.mem_range'_1.mp hi
    have hppw : List.Pairwise (fun a b => b.speed < a.speed) (posSpeedPoints telemetry) :=
      hmono.sublist (List.filter_sublist telemetry)
    have hi1lt : i + 1 < (posSpeedPoints telemetry).length := by
      unfold windowSize at hb
      omega
    have hlt : spAt (posSpeedPoints telemetry) (i + 1) < spAt (posSpeedPoints telemetry) i := by
      unfold spAt
      exact pairwise_getD _ _ hppw (Nat.lt_succ_self i) hi1lt
    have hmem : (i + 1) ∈ (List.range' (i - 5) 11).filter (fun k => k ≠ i) := by
      have hb1 := hb.1
      unfold windowSize at hb1
      refine List.mem_filter.mpr ⟨List.mem_range'_1.mpr ⟨by omega, by omega⟩, ?_⟩
      simp only [ne_eq, decide_eq_true_eq]
      omega
    rw [isLocalMin_false_of_slower _ hmem (by omega) hlt]
    simp

/-- 41 samples at distances 0..40 with constant speed −100 and positions
present (the minimum length at which the detection loop runs at all). -/
def constNegTelemetry : List TelemetrySample :=
  (List.range' 0 41).map (fun k =>
    { defaultSample with distance := (k : ℚ), speed := -100, x := some 0, y := some 0 })

/-- Counterexample to claim C7 as stated: on this constant speed profile the
detector emits a marker, because for a negative constant c the candidate
test `c < 0.85·c` succeeds and a constant profile is everywhere a weak local
minimum. -/
theorem detectTurns_constant_counterexample :
    (∀ p ∈ constNegTelemetry, p.speed = -100) ∧ detectTurns constNegTelemetry ≠ [] := by
  have hall : ∀ p ∈ constNegTelemetry, p.speed = -100 := by decide
  refine ⟨hall, ?_⟩
  have hfil : posSpeedPoints constNegTelemetry = constNegTelemetry := by
    unfold posSpeedPoints
    apply List.filter_eq_self.mpr
    decide
  have hlen : constNegTelemetry.length = 41 := by decide
  have hsp20 : spAt constNegTelemetry 20 = -100 :=
    hall _ (getD_mem_of_lt _ (by rw [hlen]; omega))
  have hcand : isCandidate constNegTelemetry 20 = true := by
    unfold isCandidate
    rw [surroundingAvg_const constNegTelemetry (-100) hall
      (by unfold windowSize; omega) (by rw [hlen]; unfold windowSize; omega)]
    rw [hsp20]
    simp only [decide_eq_true_eq]
    norm_num
  have hmin : isLocalMin constNegTelemetry 20 = true := by
    unfold isLocalMin
    rw [List.all_eq_true]
    intro j hj
    have hjb := List.mem_range'_1.mp (List.mem_filter.mp hj).1
    have hjlt : j < constNegTelemetry.length := by rw [hlen]; omega
    have hspj : spAt constNegTelemetry j = -100 :=
      hall _ (getD_mem_of_lt _ hjlt)
    have hdf : decide (spAt constNegTelemetry j < spAt constNegTelemetry 20) = false := by
      rw [hspj, hsp20]
      exact decide_eq_false (lt_irrefl _)
    simp [hdf]
  have hdet : detectTurns constNegTelemetry = turnStep constNegTelemetry [] 20 := by
    unfold detectTurns
    rw [hfil]
    dsimp only
    rw [hlen]
    rw [if_neg (by omega)]
    have hone : 41 - 2 * windowSize = 1 := by unfold windowSize; omega
    rw [hone]
    rfl
  have hstep : turnStep constNegTelemetry [] 20 = [mkTurn constNegTelemetry 20 1] := by
    unfold turnStep
    rw [hcand, hmin]
    rfl
  rw [hdet, hstep]
  simp

/-- Strictly increasing speed profile for the C7 witness. -/
def incTelemetry : List TelemetrySample :=
  [ { defaultSample with distance := 0, speed := 10 },
    { defaultSample with distance := 10, speed := 20 },
    { defaultSample with distance := 20, speed := 30 } ]

/-- Witness for C7 (amended): the constant-0 lap and a strictly increasing
profile both yield zero markers. -/
theorem detectTurns_flat_witness :
    detectTurns lapW.telemetry = [] ∧ detectTurns incTelemetry = [] :=
  ⟨(detectTurns_flat lapW.telemetry 0).2.1 le_rfl (by decide),
   (detectTurns_flat incTelemetry 0).2.2.1 (by decide)⟩

/-! ## DRS channel rectangles (`MultiTelemetryChart.drawChannelData`, drs case)

The loop records the start distance on a rising DRS edge and emits a
rectangle only on a falling edge (an inactive sample while a start is
recorded).  Rectangles are represented by their distance-domain endpoints
`(drsStart, point.distance)`; the drawn rect is their image under the linear
xScale. -/

/-- `const drsOn = point.drs && point.drs > 0` (a numeric field: 0 is falsy). -/
def drsOn (p : TelemetrySample) : Bool := decide (0 < p.drs)

/-- One loop iteration over `(rectangles so far, drsStart)`. -/
def drsStepF (acc : List (ℚ × ℚ) × Option ℚ) (p : TelemetrySample) :
    List (ℚ × ℚ) × Option ℚ :=
  if drsOn p then
    match acc.2 with
    | none => (acc.1, some p.distance)
    | some s => (acc.1, some s)
  else
    match acc.2 with
    | some s => (acc.1 ++ [(s, p.distance)], none)
    | none => (acc.1, none)

/-- The rectangles emitted for a lap's telemetry (drs channel). -/
def drsRects (telemetry : List TelemetrySample) : List (ℚ × ℚ) :=
  (telemetry.foldl drsStepF ([], none)).1

theorem foldl_drsStepF_active (run : List TelemetrySample)
    (h : ∀ p ∈ run, drsOn p = true) :
    ∀ acc, (run.foldl drsStepF acc).1 = acc.1 := by
  induction run with
  | nil => intro acc; rfl
  | cons p run ih =>
      intro acc
      rw [List.foldl_cons]
      have hp : drsOn p = true := h p (List.mem_cons_self p run)
      have hstep : (drsStepF acc p).1 = acc.1 := by
        unfold drsStepF
        rw [if_pos hp]
        cases hzz : acc.2 <;> rfl
      rw [ih (fun q hq => h q (List.mem_cons_of_mem p hq))]
      rw [hstep]

/-- Claim C10: a DRS-active region yields a rectangle only when it is closed
by a later inactive sample: appending a trailing run of DRS-active samples
(in particular one ending the telemetry, so the final sample has drs > 0)
changes nothing in the emitted rectangle list — the trailing region is
silently dropped. -/
theorem drsRects_trailing_active (pre run : List TelemetrySample)
    (hrun : ∀ p ∈ run, drsOn p = true) :
    drsRects (pre ++ run) = drsRects pre := by
  unfold drsRects
  rw [List.foldl_append]
  exact foldl_drsStepF_active run hrun _

/-- Witness for C10: a lap whose telemetry ends DRS-active (inactive at 0,
active from distance 100 on) produces the same rectangles — none — as its
prefix before the trailing active run. -/
theorem drsRects_trailing_active_witness :
    drsRects ([{ defaultSample with distance := 0, drs := 0 }]
        ++ [{ defaultSample with distance := 100, drs := 1 },
            { defaultSample with distance := 200, drs := 1 }])
      = drsRects [{ defaultSample with distance := 0, drs := 0 }] :=
  drsRects_trailing_active _ _ (by decide)

/-! ## Reference-lap state (`BaseChart.update`, `MultiTelemetryChart.setupScales`
and `MultiTelemetryChart.setReferenceLap`)

Only the `referenceLap` / `_lastData` fields are modelled; `render` and the
scale objects do not touch them. -/

/-- The payload passed to `update`/`render` (`data.laps`). -/
structure ChartData where
  laps : List Lap
deriving DecidableEq

/-- The mutable chart fields relevant to the reference lap. -/
structure ChartState where
  referenceLap : Option Lap
  lastData : Option ChartData
deriving DecidableEq

/-- The referenceLap effect of `MultiTelemetryChart.setupScales`: on the
early return (no laps) the field is untouched; otherwise it is
unconditionally overwritten with `data.laps[0]`. -/
def setupScalesRef (st : ChartState) (data : ChartData) : ChartState :=
  match data.laps with
  | [] => st
  | l :: _ => { st with referenceLap := some l }

/-- `BaseChart.update`: stores `_lastData`, re-initializes, then calls
`setupScales(data)` and `render(data)`. -/
def update (st : ChartState) (data : ChartData) : ChartState :=
  setupScalesRef { st with lastData := some data } data

/-- `MultiTelemetryChart.setReferenceLap`: assigns the reference lap, then
re-renders through `update(this._lastData)` when data was rendered before. -/
def setReferenceLap (st : ChartState) (lap : Lap) : ChartState :=
  let st1 : ChartState := { st with referenceLap := some lap }
  match st1.lastData with
  | some d => update st1 d
  | none => st1

/-- A fresh chart: no reference lap, nothing rendered. -/
def initialChartState : ChartState := { referenceLap := none, lastData := none }

/-- First loaded lap for the C9 scenario. -/
def lapA : Lap := { driver_id := "VER", lap_number := 1, telemetry := [] }

/-- Second loaded lap for the C9 scenario, distinct from `lapA`. -/
def lapB : Lap := { driver_id := "HAM", lap_number := 1, telemetry := [] }

/-- Claim C9 evaluated at the failing input: render laps [A, B], then
explicitly set the reference lap to B.  `setReferenceLap` immediately calls
`update`, whose `setupScales` unconditionally overwrites the reference with
`laps[0] = A`, so the explicit assignment to B is lost and subsequent delta
computations use A — an implicit reassignment, contradicting the claim. -/
theorem setReferenceLap_clobbered :
    (setReferenceLap (update initialChartState ⟨[lapA, lapB]⟩) lapB).referenceLap
        = some lapA ∧
      lapA ≠ lapB ∧
      calculateDelta
        (setReferenceLap (update initialChartState ⟨[lapA, lapB]⟩) lapB).referenceLap
        defaultSample lapB
        = calculateDelta (some lapA) defaultSample lapB := by
  refine ⟨rfl, by decide, rfl⟩
